import Mathlib

/-!
Shallow embedding of the file-to-DAG pipeline of ipfs-unixfs-importer:
src/packages/ipfs-unixfs-importer/src/dag-builder/file/index.js and
src/packages/ipfs-unixfs-importer/src/dag-builder/file/buffer-importer.js.

Byte buffers are lists of naturals. Sizes and recorded block sizes are Int,
because the source manipulates untyped JS numbers. The dag-pb serializer,
the persist utility and the block store are external collaborators of the
two source files and are parameters of the embedding, collected in an Env
record; the metadata object of the ipfs-unixfs package is modelled from the
specification since that package is not part of the given sources.
-/

/-- Byte buffers. -/
abbrev Bytes := List Nat

/-- Multicodec code of raw blocks: rawCodec.code in the source. -/
def rawCode : Nat := 85

/-- Multicodec code of dag-pb blocks: mc.DAG_PB in the source. -/
def dagPbCode : Nat := 112

/-- Content address: codec code, cid version and the addressed body. -/
structure Cid where
  code : Nat
  version : Nat
  body : Bytes
deriving DecidableEq, Repr

/-- Failure raised by the store behind persist and block get. -/
structure StoreErr where
  msg : String
deriving DecidableEq, Repr

/-- Addressing configuration handed to a persist call. -/
structure PersistOpts where
  codec : Nat
  cidVersion : Nat
  hasher : Nat
  onlyHash : Bool
deriving DecidableEq, Repr

/-- Modelled from the spec: the metadata object of the ipfs-unixfs package
(declared type, optional inline data, optional mtime and mode, and the
recorded child block sizes of an intermediate node). -/
structure UnixFS where
  typ : String
  data : Option Bytes := none
  mtime : Option Int := none
  mode : Option Int := none
  blockSizes : List Int := []
deriving DecidableEq, Repr

/-- Modelled from the spec: fileSize of the ipfs-unixfs metadata object is
the declared logical length, the sum of the recorded child block sizes plus
the length of the inline data when present. -/
def UnixFS.fileSize (u : UnixFS) : Int :=
  u.blockSizes.sum + (match u.data with
    | some d => (d.length : Int)
    | none => 0)

/-- Node descriptor flowing through the pipeline: address, logical path,
optional metadata, physical subtree size and the transient single flag. -/
structure TreeNode where
  cid : Cid
  path : Option String := none
  unixfs : Option UnixFS := none
  size : Int
  single : Bool := false
deriving DecidableEq, Repr

/-- One link of a dag-pb node: Name, Tsize and Hash in the source. -/
structure PBLink where
  name : String
  tsize : Int
  hash : Cid
deriving DecidableEq, Repr

/-- A dag-pb node before serialization: Data and Links in the source. -/
structure PBNode where
  data : UnixFS
  links : List PBLink
deriving DecidableEq, Repr

/-- The file being imported: logical path, optional mtime and mode, and the
ordered chunk stream. -/
structure File where
  path : String
  mtime : Option Int := none
  mode : Option Int := none
  content : List Bytes := []
deriving DecidableEq, Repr

/-- The importer options the two source files read. -/
structure ImporterOptions where
  rawLeaves : Bool
  reduceSingleLeafToSelf : Bool
  leafType : String
  cidVersion : Nat
  hasher : Nat
  onlyHash : Bool
deriving DecidableEq, Repr

/-- External collaborators of the two source files: the dag-pb serializer
(encode, prepare and marshal folded into one function on the node
structure) and the content addressed store reached through the persist
utility and block get. Store operations may fail with a StoreErr. -/
structure Env where
  encode : PBNode → Bytes
  persist : Bytes → PersistOpts → Except StoreErr Cid
  blockGet : Cid → Except StoreErr Bytes

/-! ## Leaf builder: buffer-importer.js -/

/-- Metadata built for a framed leaf (buffer-importer.js lines 37 to 42):
declared type is options.leafType, the data is the chunk bytes, mtime and
mode are copied from the file. -/
def leafUnixFS (file : File) (options : ImporterOptions) (buffer : Bytes) : UnixFS :=
  { typ := options.leafType
    data := some buffer
    mtime := file.mtime
    mode := file.mode
    blockSizes := [] }

/-- Base persist configuration of a leaf task (buffer-importer.js lines 26
to 31): dag-pb codec and the caller cid version. -/
def leafPersistOpts (options : ImporterOptions) : PersistOpts :=
  { codec := dagPbCode
    cidVersion := options.cidVersion
    hasher := options.hasher
    onlyHash := options.onlyHash }

/-- Persist configuration after the raw-leaves branch (buffer-importer.js
lines 33 to 35): the codec becomes raw and the cid version is forced to 1. -/
def rawLeafOpts (options : ImporterOptions) : PersistOpts :=
  { leafPersistOpts options with codec := rawCode, cidVersion := 1 }

/-- One leaf build task of bufferImporter (buffer-importer.js lines 21 to
52), returning the yielded descriptor together with the persist calls it
made. The progress callback is telemetry and takes no part in the result. -/
def bufferImportChunk (env : Env) (file : File) (options : ImporterOptions) (buffer : Bytes) :
    Except StoreErr (TreeNode × List (Bytes × PersistOpts)) :=
  if options.rawLeaves then
    match env.persist buffer (rawLeafOpts options) with
    | .error e => .error e
    | .ok cid =>
        .ok ({ cid := cid, unixfs := none, size := (buffer.length : Int) },
             [(buffer, rawLeafOpts options)])
  else
    let u := leafUnixFS file options buffer
    let b2 := env.encode { data := u, links := [] }
    match env.persist b2 (leafPersistOpts options) with
    | .error e => .error e
    | .ok cid =>
        .ok ({ cid := cid, unixfs := some u, size := (b2.length : Int) },
             [(b2, leafPersistOpts options)])

/-! ## Reducer: index.js lines 70 to 190 -/

/-- The child filter of the reducer general path (index.js lines 136 to
146): keep a raw-codec child with nonzero size; otherwise keep a child with
metadata whose inline data is absent when its fileSize is nonzero, or whose
inline data is present and nonempty. -/
def keepLeaf (leaf : TreeNode) : Bool :=
  if leaf.cid.code == rawCode && leaf.size != 0 then
    true
  else
    match leaf.unixfs with
    | some u =>
        match u.data with
        | none => u.fileSize != 0
        | some d => d.length != 0
    | none => false

/-- The block size recorded for one retained child (index.js lines 148 to
165): a raw-codec child contributes its physical size; a child without
inline data contributes its declared fileSize when it has metadata and 0
otherwise; a child with inline data contributes the data length. -/
def blockSizeOf (leaf : TreeNode) : Int :=
  if leaf.cid.code == rawCode then
    leaf.size
  else
    match leaf.unixfs with
    | some u =>
        match u.data with
        | none => u.fileSize
        | some d => (d.length : Int)
    | none => 0

/-- The link built for one retained child (index.js lines 152 to 156 and
167 to 171): empty name, Tsize is the physical child size, Hash is the
child address. -/
def mkLink (leaf : TreeNode) : PBLink :=
  { name := "", tsize := leaf.size, hash := leaf.cid }

/-- The metadata of the new parent node (index.js lines 129 to 133, block
sizes added by addBlockSize during the map on lines 147 to 172). -/
def parentUnixFS (file : File) (leaves : List TreeNode) : UnixFS :=
  { typ := "file"
    data := none
    mtime := file.mtime
    mode := file.mode
    blockSizes := (leaves.filter keepLeaf).map blockSizeOf }

/-- The new parent node handed to the serializer (index.js lines 174 to
177). -/
def parentNode (file : File) (leaves : List TreeNode) : PBNode :=
  { data := parentUnixFS file leaves
    links := (leaves.filter keepLeaf).map mkLink }

/-- Modelled from the spec: the persist utility (not under src) resolves
the framed-node codec together with the caller addressing configuration
when the reducer persists the new parent node (index.js line 179). -/
def persistOptsOf (options : ImporterOptions) : PersistOpts :=
  { codec := dagPbCode
    cidVersion := options.cidVersion
    hasher := options.hasher
    onlyHash := options.onlyHash }

/-- Persist configuration of the single-leaf upgrade (index.js lines 111 to
116): the options spread with the dag-pb codec and the caller hasher and
cid version. -/
def upgradeOpts (options : ImporterOptions) : PersistOpts :=
  { codec := dagPbCode
    cidVersion := options.cidVersion
    hasher := options.hasher
    onlyHash := options.onlyHash }

/-- Metadata of the upgraded single leaf (index.js lines 83 to 88): type
file, mtime and mode from the file, data refetched from the store. -/
def upgradedUnixFS (file : File) (buffer : Bytes) : UnixFS :=
  { typ := "file"
    data := some buffer
    mtime := file.mtime
    mode := file.mode
    blockSizes := [] }

/-- Errors the reducer can produce: a propagated store failure, or the
accounting failure named by the specification error taxonomy. -/
inductive ReduceError where
  | store : StoreErr → ReduceError
  | accounting : String → ReduceError
deriving DecidableEq, Repr

/-- Reducer output: the returned descriptor plus the persist calls made. -/
structure ReduceResult where
  desc : TreeNode
  writes : List (Bytes × PersistOpts)
deriving DecidableEq, Repr

/-- The single-leaf branch of the reducer (index.js lines 75 to 126): a raw
leaf is upgraded to a framed node when the file declares mtime or mode,
otherwise the leaf is returned relabeled with the file path. -/
def reduceSingleLeaf (env : Env) (file : File) (options : ImporterOptions) (leaf : TreeNode) :
    Except ReduceError ReduceResult :=
  if leaf.cid.code == rawCode && (file.mtime.isSome || file.mode.isSome) then
    match env.blockGet leaf.cid with
    | .error e => .error (.store e)
    | .ok buffer =>
        let u := upgradedUnixFS file buffer
        let b2 := env.encode { data := u, links := [] }
        match env.persist b2 (upgradeOpts options) with
        | .error e => .error (.store e)
        | .ok cid =>
            .ok { desc := { cid := cid, path := some file.path, unixfs := some u,
                            size := (b2.length : Int) },
                  writes := [(b2, upgradeOpts options)] }
  else
    .ok { desc := { cid := leaf.cid, path := some file.path, unixfs := leaf.unixfs,
                    size := leaf.size },
          writes := [] }

/-- The general branch of the reducer (index.js lines 128 to 186): build
the parent node over the retained children, persist it, and return a
descriptor whose size is the serialized length plus the sum of the link
Tsize fields. -/
def reduceToParent (env : Env) (file : File) (options : ImporterOptions) (leaves : List TreeNode) :
    Except ReduceError ReduceResult :=
  let node := parentNode file leaves
  let buffer := env.encode node
  match env.persist buffer (persistOptsOf options) with
  | .error e => .error (.store e)
  | .ok cid =>
      .ok { desc := { cid := cid, path := some file.path, unixfs := some node.data,
                      size := (buffer.length : Int)
                        + node.links.foldl (fun acc curr => acc + curr.tsize) 0 },
            writes := [(buffer, persistOptsOf options)] }

/-- The reducer (index.js lines 74 to 187): the single-leaf branch fires
exactly when there is one child, its single flag is set and the
reduceSingleLeafToSelf option is enabled; every other call builds a parent. -/
def reducer (env : Env) (file : File) (options : ImporterOptions) :
    List TreeNode → Except ReduceError ReduceResult
  | [] => reduceToParent env file options []
  | [leaf] =>
      if leaf.single && options.reduceSingleLeafToSelf then
        reduceSingleLeaf env file options leaf
      else
        reduceToParent env file options [leaf]
  | l0 :: l1 :: rest => reduceToParent env file options (l0 :: l1 :: rest)

/-- True exactly on a reducer outcome that is an accounting failure. -/
def isAccountingFailure : Except ReduceError ReduceResult → Bool
  | .error (.accounting _) => true
  | _ => false

/-- True exactly on a reducer outcome that returns a descriptor. -/
def returnsDescriptor : Except ReduceError ReduceResult → Bool
  | .ok _ => true
  | .error _ => false

/-! ## Ordered batcher: index.js lines 34 to 63

The parallelBatch combinator is an external collaborator; per the
specification it yields completed task results strictly in original chunk
order, so the batching logic below consumes the ordered result list. -/

/-- The loop state of buildFileBatch: the running count and the buffered
first entry. -/
structure BatchState where
  count : Int
  previous : Option TreeNode
deriving DecidableEq, Repr

/-- One loop iteration of buildFileBatch (index.js lines 46 to 56):
increment the count, buffer the first entry, release the buffered entry
when the second arrives, then pass entries through. -/
def buildFileBatchStep (st : BatchState) (entry : TreeNode) : BatchState × List TreeNode :=
  let count := st.count + 1
  if count == 0 then
    (⟨count, some entry⟩, [])
  else
    match st.previous with
    | some p =>
        if count == 1 then (⟨count, none⟩, [p, entry])
        else (⟨count, some p⟩, [entry])
    | none => (⟨count, none⟩, [entry])

/-- Run the buildFileBatch loop over the ordered entry list, collecting the
yielded entries. -/
def buildFileBatchGo : BatchState → List TreeNode → BatchState × List TreeNode
  | st, [] => (st, [])
  | st, e :: rest =>
      let out := buildFileBatchStep st e
      let outs := buildFileBatchGo out.1 rest
      (outs.1, out.2 ++ outs.2)

/-- The epilogue of buildFileBatch (index.js lines 59 to 62): a still
buffered entry is marked single and yielded. -/
def buildFileBatchFinish (st : BatchState) : List TreeNode :=
  match st.previous with
  | some p => [{ p with single := true }]
  | none => []

/-- buildFileBatch (index.js lines 34 to 63) over the ordered completed
results of the leaf build tasks. -/
def buildFileBatch (entries : List TreeNode) : List TreeNode :=
  let run := buildFileBatchGo ⟨-1, none⟩ entries
  run.2 ++ buildFileBatchFinish run.1

/-! ## Specification-side predicate and concrete instances -/

deriving instance DecidableEq for Except

/-- The retention condition worded as the specification states it: a
raw-codec leaf with nonzero size, or a child with metadata and no inline
data whose declared length is nonzero, or a child with metadata and
nonempty inline data. Stated independently of keepLeaf so the two can be
compared. -/
def specRetains (l : TreeNode) : Bool :=
  (l.cid.code == rawCode && l.size != 0)
  || l.unixfs.any (fun u => u.data.isNone && u.fileSize != 0)
  || l.unixfs.any (fun u => u.data.any (fun d => d.length != 0))

/-- The declared metadata type of a leaf-build outcome, when present. -/
def leafTypOf : Except StoreErr (TreeNode × List (Bytes × PersistOpts)) → Option String
  | .ok res => Option.map UnixFS.typ res.1.unixfs
  | .error _ => none

/-- A concrete serializer and store used in closed evaluations: the encoded
length grows with the link count, persist derives the address from the
configuration and the bytes, block get returns one byte. -/
def cEnv : Env :=
  { encode := fun node => List.replicate (node.links.length + 2) 0
    persist := fun b o => .ok ⟨o.codec, o.cidVersion, b⟩
    blockGet := fun _ => .ok [9] }

/-- Concrete options: framed leaves and single-leaf promotion enabled. -/
def cOpts : ImporterOptions :=
  { rawLeaves := false, reduceSingleLeafToSelf := true, leafType := "file",
    cidVersion := 1, hasher := 7, onlyHash := false }

/-- Concrete options with raw leaves enabled and cid version 0. -/
def cOptsRaw : ImporterOptions :=
  { rawLeaves := true, reduceSingleLeafToSelf := true, leafType := "file",
    cidVersion := 0, hasher := 7, onlyHash := false }

/-- Concrete options selecting a raw declared leaf type. -/
def cOptsRawType : ImporterOptions :=
  { rawLeaves := false, reduceSingleLeafToSelf := true, leafType := "raw",
    cidVersion := 1, hasher := 7, onlyHash := false }

/-- A file with no metadata. -/
def cFilePlain : File := { path := "a", mtime := none, mode := none, content := [] }

/-- A file declaring a modification time. -/
def cFileMeta : File := { path := "b", mtime := some 5, mode := none, content := [] }

/-- A raw leaf of physical size 3. -/
def cRawLeaf1 : TreeNode := { cid := ⟨rawCode, 1, [1]⟩, size := 3 }

/-- A raw leaf of physical size 4. -/
def cRawLeaf2 : TreeNode := { cid := ⟨rawCode, 1, [2]⟩, size := 4 }

/-- A raw leaf carrying the single flag. -/
def cRawSingle : TreeNode := { cid := ⟨rawCode, 1, [1]⟩, size := 3, single := true }

/-- A framed leaf carrying the single flag. -/
def cFramedLeaf : TreeNode :=
  { cid := ⟨dagPbCode, 1, [4]⟩,
    unixfs := some { typ := "file", data := some [1], mtime := none, mode := none,
                     blockSizes := [] },
    size := 6, single := true }

/-- A structurally inconsistent descriptor: it claims metadata while its
size and its recorded block size are negative. -/
def badLeaf : TreeNode :=
  { cid := ⟨dagPbCode, 1, [3]⟩,
    unixfs := some { typ := "file", data := none, mtime := none, mode := none,
                     blockSizes := [-5] },
    size := -1 }

/-- The reducer outcome on the two raw leaves under cEnv and cOpts. -/
def c1res : ReduceResult :=
  { desc := { cid := ⟨dagPbCode, 1, [0, 0, 0, 0]⟩, path := some "a",
              unixfs := some { typ := "file", data := none, mtime := none, mode := none,
                               blockSizes := [3, 4] },
              size := 11, single := false },
    writes := [([0, 0, 0, 0], persistOptsOf cOpts)] }

/-- The leaf-build outcome on chunk [1, 2] under cEnv and cOptsRaw. -/
def c7res : TreeNode × List (Bytes × PersistOpts) :=
  ({ cid := ⟨rawCode, 1, [1, 2]⟩, path := none, unixfs := none, size := 2, single := false },
   [([1, 2], rawLeafOpts cOptsRaw)])

/-- The leaf-build outcome on chunk [1, 2] under cEnv and cOpts. -/
def c8res : TreeNode × List (Bytes × PersistOpts) :=
  ({ cid := ⟨dagPbCode, 1, [0, 0]⟩, path := none,
     unixfs := some (leafUnixFS cFilePlain cOpts [1, 2]), size := 2, single := false },
   [([0, 0], leafPersistOpts cOpts)])

/-! ## Helper lemmas -/

/-- Folding link Tsize fields is summing them. -/
theorem foldl_tsize (ls : List PBLink) (a : Int) :
    ls.foldl (fun acc curr => acc + curr.tsize) a = a + (ls.map PBLink.tsize).sum := by
  induction ls generalizing a with
  | nil => simp
  | cons x t ih =>
      simp only [List.foldl_cons, List.map_cons, List.sum_cons, ih (a + x.tsize)]
      ring

/-- The Tsize fields of the links of the new parent node are the physical
sizes of the retained children. -/
theorem parent_links_tsize (file : File) (leaves : List TreeNode) :
    ((parentNode file leaves).links.map PBLink.tsize)
      = (leaves.filter keepLeaf).map TreeNode.size := by
  simp [parentNode, mkLink, List.map_map, Function.comp]

/-- Everything a successful general-path reduction determines: the persist
call, the returned descriptor fields and the write list. -/
theorem reduceToParent_ok_elim (env : Env) (file : File) (options : ImporterOptions)
    (leaves : List TreeNode) (r : ReduceResult)
    (hok : reduceToParent env file options leaves = .ok r) :
    env.persist (env.encode (parentNode file leaves)) (persistOptsOf options) = .ok r.desc.cid
    ∧ r.desc.path = some file.path
    ∧ r.desc.unixfs = some (parentUnixFS file leaves)
    ∧ r.desc.size = ((env.encode (parentNode file leaves)).length : Int)
        + ((leaves.filter keepLeaf).map TreeNode.size).sum
    ∧ r.desc.single = false
    ∧ r.writes = [(env.encode (parentNode file leaves), persistOptsOf options)] := by
  unfold reduceToParent at hok
  simp only at hok
  split at hok
  · exact absurd hok (by simp)
  · rename_i cid hp
    cases hok
    refine ⟨hp, rfl, rfl, ?_, rfl, rfl⟩
    simp [foldl_tsize, parent_links_tsize]

/-- Outside the single-leaf branch the reducer is the general path. -/
theorem reducer_eq_general (env : Env) (file : File) (options : ImporterOptions)
    (leaves : List TreeNode)
    (hgen : ∀ l, leaves = [l] → (l.single && options.reduceSingleLeafToSelf) = false) :
    reducer env file options leaves = reduceToParent env file options leaves := by
  match leaves with
  | [] => rfl
  | [leaf] => simp [reducer, hgen leaf rfl]
  | l0 :: l1 :: rest => rfl

/-! ## Claim theorems -/

/-- Claim C1: for every call of the reducer general path, the size of the
returned descriptor equals the serialized length of the newly built parent
node plus the sum of the size fields of exactly the retained children. -/
theorem reducer_general_size_invariant (env : Env) (file : File) (options : ImporterOptions)
    (leaves : List TreeNode) (r : ReduceResult)
    (hgen : ∀ l, leaves = [l] → (l.single && options.reduceSingleLeafToSelf) = false)
    (hok : reducer env file options leaves = .ok r) :
    r.desc.size = ((env.encode (parentNode file leaves)).length : Int)
      + ((leaves.filter keepLeaf).map TreeNode.size).sum := by
  rw [reducer_eq_general env file options leaves hgen] at hok
  exact (reduceToParent_ok_elim env file options leaves r hok).2.2.2.1

/-- Claim C2: a single-child reduction with the single flag set and
reduceSingleLeafToSelf enabled, where the leaf is already framed or the
file declares neither mtime nor mode, returns the leaf address, metadata
and size unchanged under the file path, and persists nothing. -/
theorem reducer_single_leaf_promotion (env : Env) (file : File) (options : ImporterOptions)
    (leaf : TreeNode)
    (hsingle : leaf.single = true)
    (hopt : options.reduceSingleLeafToSelf = true)
    (hno : leaf.cid.code ≠ rawCode ∨ (file.mtime = none ∧ file.mode = none)) :
    reducer env file options [leaf] =
      .ok { desc := { cid := leaf.cid, path := some file.path, unixfs := leaf.unixfs,
                      size := leaf.size, single := false },
            writes := [] } := by
  have hcond : (leaf.cid.code == rawCode && (file.mtime.isSome || file.mode.isSome)) = false := by
    rcases hno with h | ⟨h1, h2⟩
    · simp [h]
    · simp [h1, h2]
  simp [reducer, hsingle, hopt, reduceSingleLeaf, hcond]

/-- Claim C3: in the single-leaf branch, a raw leaf under a file declaring
mtime or mode is upgraded: its bytes are refetched, wrapped in a framed
node carrying the file metadata, persisted under the dag-pb codec, and the
returned descriptor carries the new address and the framed serialized
length. -/
theorem reducer_single_leaf_upgrade (env : Env) (file : File) (options : ImporterOptions)
    (leaf : TreeNode) (buf : Bytes) (c : Cid)
    (hsingle : leaf.single = true)
    (hopt : options.reduceSingleLeafToSelf = true)
    (hraw : leaf.cid.code = rawCode)
    (hmeta : file.mtime.isSome = true ∨ file.mode.isSome = true)
    (hget : env.blockGet leaf.cid = .ok buf)
    (hpersist : env.persist (env.encode { data := upgradedUnixFS file buf, links := [] })
        (upgradeOpts options) = .ok c) :
    reducer env file options [leaf] =
      .ok { desc := { cid := c, path := some file.path,
                      unixfs := some (upgradedUnixFS file buf),
                      size := ((env.encode { data := upgradedUnixFS file buf,
                                             links := [] }).length : Int),
                      single := false },
            writes := [(env.encode { data := upgradedUnixFS file buf, links := [] },
                        upgradeOpts options)] }
      ∧ (upgradeOpts options).codec = dagPbCode := by
  have hcond : (leaf.cid.code == rawCode && (file.mtime.isSome || file.mode.isSome)) = true := by
    rcases hmeta with h | h <;> simp [hraw, h]
  refine ⟨?_, rfl⟩
  simp [reducer, hsingle, hopt, reduceSingleLeaf, hcond, hget, hpersist]

/-- Claim C10: a reduction over an empty child list does not fail: it
builds the parent node over no children, with an empty link list and an
empty block-size list, and the returned size is just the serialized length
of that empty node. -/
theorem reducer_empty_children (env : Env) (file : File) (options : ImporterOptions) (c : Cid)
    (hp : env.persist (env.encode (parentNode file [])) (persistOptsOf options) = .ok c) :
    reducer env file options [] =
      .ok { desc := { cid := c, path := some file.path,
                      unixfs := some (parentUnixFS file []),
                      size := ((env.encode (parentNode file [])).length : Int),
                      single := false },
            writes := [(env.encode (parentNode file []), persistOptsOf options)] }
    ∧ (parentNode file []).links = []
    ∧ (parentUnixFS file []).blockSizes = [] := by
  refine ⟨?_, rfl, rfl⟩
  show reduceToParent env file options [] = _
  unfold reduceToParent
  simp only [hp]
  simp [parentNode]

/-- The retention filter holds exactly on the three child shapes the
specification lists. -/
theorem keepLeaf_iff (l : TreeNode) :
    keepLeaf l = true ↔
      ((l.cid.code = rawCode ∧ l.size ≠ 0)
        ∨ (∃ u, l.unixfs = some u ∧ u.data = none ∧ u.fileSize ≠ 0)
        ∨ (∃ u d, l.unixfs = some u ∧ u.data = some d ∧ d.length ≠ 0)) := by
  obtain ⟨cid, path, ufs, size, single⟩ := l
  rcases ufs with _ | ⟨typ, dat, mt, md, bss⟩
  · simp [keepLeaf]
  · rcases dat with _ | d <;> simp [keepLeaf]

/-- The recorded block size split into the three source branches, stated
with propositional conditions. -/
theorem blockSizeOf_cases : blockSizeOf = fun l : TreeNode =>
    if l.cid.code = rawCode then l.size
    else match l.unixfs with
      | some u => (match u.data with
          | none => u.fileSize
          | some d => (d.length : Int))
      | none => 0 := by
  funext l
  unfold blockSizeOf
  by_cases h : l.cid.code = rawCode <;> simp [h]

/-- The source filter agrees with the retention condition as the
specification words it. -/
theorem keepLeaf_eq_specRetains : keepLeaf = specRetains := by
  funext l
  rw [Bool.eq_iff_iff]
  obtain ⟨cid, path, ufs, size, single⟩ := l
  rcases ufs with _ | ⟨typ, dat, mt, md, bss⟩
  · simp [keepLeaf, specRetains]
  · rcases dat with _ | d <;> simp [keepLeaf, specRetains]

/-- Claim C4: in the general path a child is linked from the parent exactly
when it is a raw leaf with nonzero size, a framed node without inline data
and with nonzero declared length, or a framed leaf with nonempty inline
data; a dropped child reaches neither the link list nor the block-size list
and adds nothing to the parent size. -/
theorem reducer_child_filtering (env : Env) (file : File) (options : ImporterOptions)
    (leaves : List TreeNode) (r : ReduceResult)
    (hgen : ∀ l, leaves = [l] → (l.single && options.reduceSingleLeafToSelf) = false)
    (hok : reducer env file options leaves = .ok r) :
    keepLeaf = specRetains
    ∧ (parentNode file leaves).links = (leaves.filter specRetains).map mkLink
    ∧ (parentUnixFS file leaves).blockSizes = (leaves.filter specRetains).map blockSizeOf
    ∧ r.desc.unixfs = some (parentUnixFS file leaves)
    ∧ r.desc.size = ((env.encode (parentNode file leaves)).length : Int)
        + ((leaves.filter specRetains).map TreeNode.size).sum := by
  rw [reducer_eq_general env file options leaves hgen] at hok
  have h := reduceToParent_ok_elim env file options leaves r hok
  rw [← keepLeaf_eq_specRetains]
  exact ⟨rfl, rfl, rfl, h.2.2.1, h.2.2.2.1⟩

/-- Claim C5: each retained child records its logical contribution in the
block-size list while its link always carries the full physical size, and
both lists keep the input child order. -/
theorem reducer_blocksize_and_links (env : Env) (file : File) (options : ImporterOptions)
    (leaves : List TreeNode) (r : ReduceResult)
    (hgen : ∀ l, leaves = [l] → (l.single && options.reduceSingleLeafToSelf) = false)
    (hok : reducer env file options leaves = .ok r) :
    (parentUnixFS file leaves).blockSizes
        = (leaves.filter keepLeaf).map (fun l =>
            if l.cid.code = rawCode then l.size
            else match l.unixfs with
              | some u => (match u.data with
                  | none => u.fileSize
                  | some d => (d.length : Int))
              | none => 0)
    ∧ (parentNode file leaves).links
        = (leaves.filter keepLeaf).map (fun l =>
            { name := "", tsize := l.size, hash := l.cid })
    ∧ List.Sublist (leaves.filter keepLeaf) leaves
    ∧ r.desc.unixfs = some (parentUnixFS file leaves) := by
  rw [reducer_eq_general env file options leaves hgen] at hok
  have h := reduceToParent_ok_elim env file options leaves r hok
  refine ⟨?_, rfl, List.filter_sublist leaves, h.2.2.1⟩
  show (leaves.filter keepLeaf).map blockSizeOf = _
  rw [blockSizeOf_cases]

/-- Once the buffered first entry is released, the batch loop passes every
further entry straight through and buffers nothing. -/
theorem buildFileBatchGo_stream (rest : List TreeNode) (c : Int) (hc : 0 ≤ c) :
    buildFileBatchGo ⟨c, none⟩ rest = (⟨c + rest.length, none⟩, rest) := by
  induction rest generalizing c with
  | nil => simp [buildFileBatchGo]
  | cons e t ih =>
      have hne : (c + 1 == 0) = false := by
        simp only [beq_eq_false_iff_ne, ne_eq]
        omega
      simp only [buildFileBatchGo, buildFileBatchStep, hne, Bool.false_eq_true, if_false,
        ih (c + 1) (by omega), List.length_cons]
      simp only [Prod.mk.injEq, BatchState.mk.injEq]
      refine ⟨⟨by push_cast; ring, trivial⟩, by simp⟩

/-- Claim C6: over a finite ordered task-result sequence with clear single
flags, the batcher yields the results in original order; the first result
is withheld while the input has not gone past it; and the yielded single
flag is set exactly when the sequence produced one result. -/
theorem buildFileBatch_order_and_single (entries : List TreeNode)
    (h : ∀ e ∈ entries, e.single = false) :
    buildFileBatch entries =
      (if entries.length = 1 then entries.map (fun e => { e with single := true })
       else entries)
    ∧ (buildFileBatchGo ⟨-1, none⟩ (entries.take 1)).2 = []
    ∧ (∀ k, 2 ≤ k → k ≤ entries.length →
        (buildFileBatchGo ⟨-1, none⟩ (entries.take k)).2 = entries.take k)
    ∧ (∀ e ∈ buildFileBatch entries, (e.single = true ↔ entries.length = 1)) := by
  match entries with
  | [] =>
      refine ⟨rfl, rfl, ?_, ?_⟩
      · intro k hk hk2
        simp at hk2
        omega
      · intro e he
        simp [buildFileBatch, buildFileBatchGo, buildFileBatchFinish] at he
  | [e0] =>
      refine ⟨rfl, rfl, ?_, ?_⟩
      · intro k hk hk2
        simp at hk2
        omega
      · intro e he
        simp [buildFileBatch, buildFileBatchGo, buildFileBatchStep,
          buildFileBatchFinish] at he
        subst he
        simp
  | e0 :: e1 :: rest =>
      have hfirst :
          buildFileBatchGo ⟨-1, none⟩ (e0 :: e1 :: rest)
            = (⟨1 + rest.length, none⟩, e0 :: e1 :: rest) := by
        simp only [buildFileBatchGo, buildFileBatchStep]
        norm_num
        rw [buildFileBatchGo_stream rest 1 (by omega)]
        exact ⟨rfl, rfl⟩
      have hmain : buildFileBatch (e0 :: e1 :: rest) = e0 :: e1 :: rest := by
        simp [buildFileBatch, hfirst, buildFileBatchFinish]
      refine ⟨?_, rfl, ?_, ?_⟩
      · rw [hmain]
        simp
      · intro k hk hk2
        match k, hk with
        | (k2 + 2), _ =>
            simp only [List.take_succ_cons]
            simp only [buildFileBatchGo, buildFileBatchStep]
            norm_num
            rw [buildFileBatchGo_stream (rest.take k2) 1 (by omega)]
      · intro e he
        rw [hmain] at he
        have hs := h e he
        simp [hs]

/-- Claim C7: a raw leaf is persisted with the raw codec and its cid
version forced to 1 whatever the caller configured, while a framed leaf is
persisted with the dag-pb codec and the caller cid version. -/
theorem bufferImporter_codec_versions (env : Env) (file : File) (options : ImporterOptions)
    (buffer : Bytes) (res : TreeNode × List (Bytes × PersistOpts))
    (hok : bufferImportChunk env file options buffer = .ok res) :
    (options.rawLeaves = true →
        res.2 = [(buffer, { codec := rawCode, cidVersion := 1,
                            hasher := options.hasher, onlyHash := options.onlyHash })])
    ∧ (options.rawLeaves = false →
        res.2 = [(env.encode { data := leafUnixFS file options buffer, links := [] },
                  { codec := dagPbCode, cidVersion := options.cidVersion,
                    hasher := options.hasher, onlyHash := options.onlyHash })]) := by
  constructor
  · intro hraw
    unfold bufferImportChunk at hok
    rw [hraw] at hok
    simp only [if_true] at hok
    split at hok
    · exact absurd hok (by simp)
    · cases hok
      rfl
  · intro hraw
    unfold bufferImportChunk at hok
    rw [hraw] at hok
    simp only [Bool.false_eq_true, if_false] at hok
    split at hok
    · exact absurd hok (by simp)
    · cases hok
      rfl

/-- Claim C8 (amended: the declared type of a framed leaf is the configured
leafType option, which callers default to file, not the constant file): a
framed leaf carries the chunk bytes as content with mtime and mode copied
from the file, the yielded size is the length of the exact bytes persisted,
and metadata is present exactly when the leaf is framed. -/
theorem bufferImporter_leaf_metadata (env : Env) (file : File) (options : ImporterOptions)
    (buffer : Bytes) (res : TreeNode × List (Bytes × PersistOpts))
    (hok : bufferImportChunk env file options buffer = .ok res) :
    (options.rawLeaves = false →
        res.1.unixfs = some { typ := options.leafType, data := some buffer,
                              mtime := file.mtime, mode := file.mode, blockSizes := [] }
        ∧ res.1.size = ((env.encode { data := leafUnixFS file options buffer,
                                      links := [] }).length : Int)
        ∧ res.2 = [(env.encode { data := leafUnixFS file options buffer, links := [] },
                    leafPersistOpts options)])
    ∧ (options.rawLeaves = true →
        res.1.unixfs = none
        ∧ res.1.size = (buffer.length : Int)
        ∧ res.2 = [(buffer, rawLeafOpts options)]) := by
  constructor
  · intro hraw
    unfold bufferImportChunk at hok
    rw [hraw] at hok
    simp only [Bool.false_eq_true, if_false] at hok
    split at hok
    · exact absurd hok (by simp)
    · cases hok
      exact ⟨rfl, rfl, rfl⟩
  · intro hraw
    unfold bufferImportChunk at hok
    rw [hraw] at hok
    simp only [if_true] at hok
    split at hok
    · exact absurd hok (by simp)
    · cases hok
      exact ⟨rfl, rfl, rfl⟩

/-- Claim C8 counterexample: with the leafType option set to raw the framed
leaf metadata declares type raw, not type file, at a concrete chunk. -/
theorem bufferImporter_leaftype_counterexample :
    cOptsRawType.rawLeaves = false
    ∧ leafTypOf (bufferImportChunk cEnv cFilePlain cOptsRawType [1, 2]) = some "raw"
    ∧ leafTypOf (bufferImportChunk cEnv cFilePlain cOptsRawType [1, 2]) ≠ some "file" := by
  refine ⟨rfl, rfl, ?_⟩
  intro h
  simp [leafTypOf, bufferImportChunk, cEnv, cFilePlain, cOptsRawType, leafUnixFS] at h

/-- The general path never produces an accounting failure. -/
theorem reduceToParent_no_accounting (env : Env) (file : File) (options : ImporterOptions)
    (leaves : List TreeNode) :
    isAccountingFailure (reduceToParent env file options leaves) = false := by
  unfold reduceToParent
  dsimp only
  split <;> rfl

/-- The single-leaf branch never produces an accounting failure. -/
theorem reduceSingleLeaf_no_accounting (env : Env) (file : File) (options : ImporterOptions)
    (leaf : TreeNode) :
    isAccountingFailure (reduceSingleLeaf env file options leaf) = false := by
  unfold reduceSingleLeaf
  split
  · split
    · rfl
    · dsimp only
      split <;> rfl
  · rfl

/-- Claim C9 (amended: the reducer performs no structural validation of its
child descriptors and never fails with an accounting error; the only
failures it can surface are store failures propagated from persist or block
get): no reducer outcome is an accounting failure. -/
theorem reducer_never_accounting (env : Env) (file : File) (options : ImporterOptions)
    (leaves : List TreeNode) :
    isAccountingFailure (reducer env file options leaves) = false := by
  match leaves with
  | [] => exact reduceToParent_no_accounting env file options []
  | [leaf] =>
      simp only [reducer]
      split
      · exact reduceSingleLeaf_no_accounting env file options leaf
      · exact reduceToParent_no_accounting env file options [leaf]
  | l0 :: l1 :: rest =>
      exact reduceToParent_no_accounting env file options (l0 :: l1 :: rest)

/-- Claim C9 counterexample: on a structurally inconsistent child, whose
descriptor claims metadata while its size and its recorded block size are
negative, the reducer does not fail: it returns a descriptor and raises no
accounting failure. -/
theorem reducer_accounting_counterexample :
    badLeaf.size < 0
    ∧ badLeaf.unixfs.isSome = true
    ∧ (badLeaf.unixfs.elim (0 : Int) UnixFS.fileSize) < 0
    ∧ returnsDescriptor (reducer cEnv cFilePlain cOpts [badLeaf]) = true
    ∧ isAccountingFailure (reducer cEnv cFilePlain cOpts [badLeaf]) = false := by
  decide

/-! ## Closed witness instances -/

/-- Closed instance of the general-path size invariant on two raw leaves. -/
theorem reducer_general_size_invariant_witness :
    c1res.desc.size
      = ((cEnv.encode (parentNode cFilePlain [cRawLeaf1, cRawLeaf2])).length : Int)
        + (([cRawLeaf1, cRawLeaf2].filter keepLeaf).map TreeNode.size).sum :=
  reducer_general_size_invariant cEnv cFilePlain cOpts [cRawLeaf1, cRawLeaf2] c1res
    (by intro l hl; simp at hl) (by decide)

/-- Closed instance of the single-leaf promotion on a framed leaf. -/
theorem reducer_single_leaf_promotion_witness :
    reducer cEnv cFileMeta cOpts [cFramedLeaf] =
      .ok { desc := { cid := cFramedLeaf.cid, path := some cFileMeta.path,
                      unixfs := cFramedLeaf.unixfs, size := cFramedLeaf.size,
                      single := false },
            writes := [] } :=
  reducer_single_leaf_promotion cEnv cFileMeta cOpts cFramedLeaf (by decide) (by decide)
    (Or.inl (by decide))

/-- Closed instance of the single-leaf upgrade on a raw leaf under a file
declaring a modification time. -/
theorem reducer_single_leaf_upgrade_witness :
    reducer cEnv cFileMeta cOpts [cRawSingle] =
      .ok { desc := { cid := ⟨dagPbCode, 1, [0, 0]⟩, path := some cFileMeta.path,
                      unixfs := some (upgradedUnixFS cFileMeta [9]),
                      size := ((cEnv.encode { data := upgradedUnixFS cFileMeta [9],
                                              links := [] }).length : Int),
                      single := false },
            writes := [(cEnv.encode { data := upgradedUnixFS cFileMeta [9], links := [] },
                        upgradeOpts cOpts)] }
      ∧ (upgradeOpts cOpts).codec = dagPbCode :=
  reducer_single_leaf_upgrade cEnv cFileMeta cOpts cRawSingle [9] ⟨dagPbCode, 1, [0, 0]⟩
    (by decide) (by decide) (by decide) (Or.inl (by decide)) (by decide) (by decide)

/-- Closed instance of the child filtering characterization. -/
theorem reducer_child_filtering_witness :
    keepLeaf = specRetains
    ∧ (parentNode cFilePlain [cRawLeaf1, cRawLeaf2]).links
        = ([cRawLeaf1, cRawLeaf2].filter specRetains).map mkLink
    ∧ (parentUnixFS cFilePlain [cRawLeaf1, cRawLeaf2]).blockSizes
        = ([cRawLeaf1, cRawLeaf2].filter specRetains).map blockSizeOf
    ∧ c1res.desc.unixfs = some (parentUnixFS cFilePlain [cRawLeaf1, cRawLeaf2])
    ∧ c1res.desc.size
        = ((cEnv.encode (parentNode cFilePlain [cRawLeaf1, cRawLeaf2])).length : Int)
          + (([cRawLeaf1, cRawLeaf2].filter specRetains).map TreeNode.size).sum :=
  reducer_child_filtering cEnv cFilePlain cOpts [cRawLeaf1, cRawLeaf2] c1res
    (by intro l hl; simp at hl) (by decide)

/-- Closed instance of the block-size and link list characterization. -/
theorem reducer_blocksize_and_links_witness :
    (parentUnixFS cFilePlain [cRawLeaf1, cRawLeaf2]).blockSizes
        = ([cRawLeaf1, cRawLeaf2].filter keepLeaf).map (fun l =>
            if l.cid.code = rawCode then l.size
            else match l.unixfs with
              | some u => (match u.data with
                  | none => u.fileSize
                  | some d => (d.length : Int))
              | none => 0)
    ∧ (parentNode cFilePlain [cRawLeaf1, cRawLeaf2]).links
        = ([cRawLeaf1, cRawLeaf2].filter keepLeaf).map (fun l =>
            { name := "", tsize := l.size, hash := l.cid })
    ∧ List.Sublist ([cRawLeaf1, cRawLeaf2].filter keepLeaf) [cRawLeaf1, cRawLeaf2]
    ∧ c1res.desc.unixfs = some (parentUnixFS cFilePlain [cRawLeaf1, cRawLeaf2]) :=
  reducer_blocksize_and_links cEnv cFilePlain cOpts [cRawLeaf1, cRawLeaf2] c1res
    (by intro l hl; simp at hl) (by decide)

/-- Closed instance of the batcher contract on a two-entry sequence. -/
theorem buildFileBatch_order_and_single_witness :
    buildFileBatch [cRawLeaf1, cRawLeaf2] = [cRawLeaf1, cRawLeaf2] := by
  have h := buildFileBatch_order_and_single [cRawLeaf1, cRawLeaf2] (by decide)
  simpa using h.1

/-- Closed instance of the leaf persist configuration contract: the raw
leaf of a caller configured with cid version 0 is persisted at version 1. -/
theorem bufferImporter_codec_versions_witness :
    c7res.2 = [([1, 2], { codec := rawCode, cidVersion := 1, hasher := cOptsRaw.hasher,
                          onlyHash := cOptsRaw.onlyHash })] :=
  (bufferImporter_codec_versions cEnv cFilePlain cOptsRaw [1, 2] c7res (by decide)).1 rfl

/-- Closed instance of the framed leaf metadata contract. -/
theorem bufferImporter_leaf_metadata_witness :
    c8res.1.unixfs = some { typ := cOpts.leafType, data := some [1, 2],
                            mtime := cFilePlain.mtime, mode := cFilePlain.mode,
                            blockSizes := [] }
    ∧ c8res.1.size = ((cEnv.encode { data := leafUnixFS cFilePlain cOpts [1, 2],
                                     links := [] }).length : Int)
    ∧ c8res.2 = [(cEnv.encode { data := leafUnixFS cFilePlain cOpts [1, 2], links := [] },
                  leafPersistOpts cOpts)] :=
  (bufferImporter_leaf_metadata cEnv cFilePlain cOpts [1, 2] c8res (by decide)).1 rfl

/-- Closed instance of the empty-child-list reduction. -/
theorem reducer_empty_children_witness :
    reducer cEnv cFilePlain cOpts [] =
      .ok { desc := { cid := ⟨dagPbCode, 1, [0, 0]⟩, path := some cFilePlain.path,
                      unixfs := some (parentUnixFS cFilePlain []),
                      size := ((cEnv.encode (parentNode cFilePlain [])).length : Int),
                      single := false },
            writes := [(cEnv.encode (parentNode cFilePlain []), persistOptsOf cOpts)] }
    ∧ (parentNode cFilePlain []).links = []
    ∧ (parentUnixFS cFilePlain []).blockSizes = [] :=
  reducer_empty_children cEnv cFilePlain cOpts ⟨dagPbCode, 1, [0, 0]⟩ (by decide)
